import Mathlib

/-! Shallow embedding of the deep-research pipeline orchestrator
(`src/deep_research/research_manager.py`) and its public streaming entry point
(`src/deep_research/deep_research.py`).

Modelling conventions:
- Remote agent calls (`Runner.run(planner_agent, ...)`, `Runner.run(search_agent, ...)`,
  `Runner.run(writer_agent, ...)`) are external collaborators; each is modelled by an
  explicit outcome parameter (`Except` for calls that may raise, `SearchOutcome` per
  search task).
- The thread-safe `progress_queue` is modelled as a list of pending message strings;
  `add_progress` appends, a drain removes everything.
- Async generators are modelled as the finite list of the values they yield.
- The nondeterministic interleaving of the asyncio scheduler is modelled by explicit
  schedule parameters: a completion-order permutation for the fan-out tasks, and a
  per-poll-iteration batching of pushed messages for the streaming loop.
-/

/-- Modelled from the spec: WorkItem is a pair of a query string and a reason string
(the source imports `WebSearchItem` from `planner_agent.py`, a repository file that is
not among the embedded sources; spec section 3 gives its shape). -/
structure WebSearchItem where
  query : String
  reason : String
deriving DecidableEq

/-- The `SearchPlan` pydantic model of research_manager.py: the planned searches plus
a separate count field. -/
structure SearchPlan where
  searches : List WebSearchItem
  total_searches : Nat
deriving DecidableEq

/-- Outcome of one remote `Runner.run(search_agent, ...)` call inside `single_search`:
either a final output rendered to a payload string, or a raised exception message. -/
inductive SearchOutcome where
  | success (payload : String)
  | failure (err : String)
deriving DecidableEq

def SearchOutcome.isFailure : SearchOutcome → Bool
  | SearchOutcome.success _ => false
  | SearchOutcome.failure _ => true

/-- Progress events, one constructor per `add_progress` call site in
research_manager.py, carrying exactly the data interpolated into the f-string
of that call site. -/
inductive Ev where
  | planningStart
  | analyzing (query : String)
  | planningComplete (n : Nat)
  | plannedHeader
  | plannedItem (i : Nat) (query reason : String)
  | blank
  | startBanner (total : Nat)
  | searchStart (num : Nat) (query : String)
  | searchDone (num : Nat)
  | searchFailed (num : Nat) (err : String)
  | progress (completed total : Nat)
  | doneBanner (gathered : Nat)
  | writingStart
  | synthesizing (n : Nat)
  | analyzingPatterns
  | reportComplete
  | divider
deriving DecidableEq

/-- Exact message text pushed onto the progress queue for each event: the f-strings
of the corresponding `add_progress` call sites in research_manager.py. -/
def render : Ev → String
  | Ev.planningStart => "🎯 **Planning Research Searches...**\n"
  | Ev.analyzing q => "📝 Analyzing query: *" ++ q ++ "*\n"
  | Ev.planningComplete n =>
      "✅ **Planning Complete!** Will perform " ++ toString n ++ " targeted searches\n\n"
  | Ev.plannedHeader => "📋 **Planned Searches:**\n"
  | Ev.plannedItem i q r => "   " ++ toString i ++ ". *" ++ q ++ "* - " ++ r ++ "\n"
  | Ev.blank => "\n"
  | Ev.startBanner t => "🔍 **Starting " ++ toString t ++ " Concurrent Searches...**\n\n"
  | Ev.searchStart n q => "🔎 Search " ++ toString n ++ ": *" ++ q ++ "*\n"
  | Ev.searchDone n => "✅ Search " ++ toString n ++ " completed\n"
  | Ev.searchFailed n e => "❌ Search " ++ toString n ++ " failed: " ++ e ++ "\n"
  | Ev.progress c t =>
      "📊 **Progress**: " ++ toString c ++ "/" ++ toString t ++ " searches completed\n"
  | Ev.doneBanner n =>
      "🎉 **All Searches Complete!** Gathered " ++ toString n ++ " successful results\n\n"
  | Ev.writingStart => "📝 **Writing Comprehensive Report...**\n"
  | Ev.synthesizing n => "📊 Synthesizing " ++ toString n ++ " search results\n"
  | Ev.analyzingPatterns => "🧠 Analyzing patterns and insights\n"
  | Ev.reportComplete => "✅ **Report Generation Complete!**\n\n"
  | Ev.divider => "---\n\n"

/-- The three pipeline stages of the Research Manager agent workflow. -/
inductive Stage where
  | plan
  | execute
  | synthesize
deriving DecidableEq

/-- Pipeline stage whose code pushes each event: `plan_research_searches` events are
Plan, `perform_multiple_searches`/`single_search` events are Execute,
`write_research_report` events are Synthesize. -/
def Ev.stage : Ev → Stage
  | Ev.planningStart => Stage.plan
  | Ev.analyzing _ => Stage.plan
  | Ev.planningComplete _ => Stage.plan
  | Ev.plannedHeader => Stage.plan
  | Ev.plannedItem _ _ _ => Stage.plan
  | Ev.blank => Stage.plan
  | Ev.startBanner _ => Stage.execute
  | Ev.searchStart _ _ => Stage.execute
  | Ev.searchDone _ => Stage.execute
  | Ev.searchFailed _ _ => Stage.execute
  | Ev.progress _ _ => Stage.execute
  | Ev.doneBanner _ => Stage.execute
  | Ev.writingStart => Stage.synthesize
  | Ev.synthesizing _ => Stage.synthesize
  | Ev.analyzingPatterns => Stage.synthesize
  | Ev.reportComplete => Stage.synthesize
  | Ev.divider => Stage.synthesize

/-- Model of the inner coroutine `single_search` of `perform_multiple_searches`:
the events the task pushes over its lifetime and its return value
(`str(result.final_output)` on success, `None` when the awaited call raised). -/
def single_search (search_item : WebSearchItem) (search_num : Nat) (oc : SearchOutcome) :
    List Ev × Option String :=
  match oc with
  | SearchOutcome.success payload =>
      ([Ev.searchStart search_num search_item.query, Ev.searchDone search_num], some payload)
  | SearchOutcome.failure e =>
      ([Ev.searchStart search_num search_item.query, Ev.searchFailed search_num e], none)

/-- Settlement event of task `i` (0-based): the second event `single_search`
pushes, after its awaited remote call returns or raises. -/
def settleEv (i : Nat) (oc : SearchOutcome) : Ev :=
  match oc with
  | SearchOutcome.success _ => Ev.searchDone (i + 1)
  | SearchOutcome.failure e => Ev.searchFailed (i + 1) e

/-- Return value of task `i`: the payload on success, `None` on failure. -/
def payloadOf (oc : SearchOutcome) : Option String :=
  match oc with
  | SearchOutcome.success p => some p
  | SearchOutcome.failure _ => none

theorem single_search_eq (it : WebSearchItem) (i : Nat) (oc : SearchOutcome) :
    single_search it (i + 1) oc
      = ([Ev.searchStart (i + 1) it.query, settleEv i oc], payloadOf oc) := by
  cases oc <;> rfl

/-- The `for task in asyncio.as_completed(tasks)` loop of
`perform_multiple_searches`: `order` lists the 0-based task indices in completion
order, `num_completed` is the running counter. Each iteration observes the settled
own settlement event of the settled task, then pushes one progress event
`num_completed/len(tasks)`, and appends the payload of the task to `results` when
it is not `None`. -/
def drainTasks (searches : List (WebSearchItem × SearchOutcome)) (total : Nat) :
    List Nat → Nat → List Ev × List String
  | [], _ => ([], [])
  | i :: rest, num_completed =>
    match searches[i]? with
    | some (_, oc) =>
        (settleEv i oc :: Ev.progress (num_completed + 1) total ::
            (drainTasks searches total rest (num_completed + 1)).1,
          match payloadOf oc with
          | some p => p :: (drainTasks searches total rest (num_completed + 1)).2
          | none => (drainTasks searches total rest (num_completed + 1)).2)
    | none =>
        (Ev.progress (num_completed + 1) total ::
            (drainTasks searches total rest (num_completed + 1)).1,
          (drainTasks searches total rest (num_completed + 1)).2)

/-- Trace of one `perform_multiple_searches` call: all events pushed onto the
progress queue (in the canonical schedule where each settled task is collected
before the next settles) and the returned list of successful payloads. -/
structure ExecTrace where
  events : List Ev
  results : List String
deriving DecidableEq

/-- Model of `perform_multiple_searches`. Each planned search is paired with the
outcome of its remote call; `total_searches` is the count field of the incoming
`SearchPlan` (used only in the start banner, as in the source); `order` is the
completion order of the concurrently launched tasks. The start banner is pushed
first; every task is created — and hence pushes its `searchStart` event at its
first scheduling — before the loop awaits any of them; then the tasks are drained
in completion order. -/
def perform_multiple_searches (search_plan : List (WebSearchItem × SearchOutcome))
    (total_searches : Nat) (order : List Nat) : ExecTrace :=
  { events := Ev.startBanner total_searches ::
      ((search_plan.enum.map fun p => Ev.searchStart (p.1 + 1) p.2.1.query)
        ++ (drainTasks search_plan search_plan.length order 0).1
        ++ [Ev.doneBanner (drainTasks search_plan search_plan.length order 0).2.length]),
    results := (drainTasks search_plan search_plan.length order 0).2 }

/-- The completed/total pairs carried by the progress events of a trace, in
emission order. -/
def progressPairs (evs : List Ev) : List (Nat × Nat) :=
  evs.filterMap fun e =>
    match e with
    | Ev.progress c t => some (c, t)
    | _ => none

/-- The completed-count values carried by the progress events of a trace. -/
def progressCounts (evs : List Ev) : List Nat :=
  (progressPairs evs).map Prod.fst

/-- Payload contributed by task `i` as seen from the results list: the payload when
item `i` exists and its remote call succeeded, nothing otherwise. -/
def successPayload (searches : List (WebSearchItem × SearchOutcome)) (i : Nat) :
    Option String :=
  match searches[i]? with
  | some (_, SearchOutcome.success p) => some p
  | _ => none

theorem drainTasks_results (searches : List (WebSearchItem × SearchOutcome)) (total : Nat) :
    ∀ (order : List Nat) (c : Nat),
      (drainTasks searches total order c).2 = order.filterMap (successPayload searches) := by
  intro order
  induction order with
  | nil => intro c; simp [drainTasks]
  | cons i rest ih =>
      intro c
      rw [List.filterMap_cons]
      cases h : searches[i]? with
      | none => simp [drainTasks, successPayload, h, ih]
      | some p =>
          obtain ⟨item, oc⟩ := p
          cases oc with
          | success pay => simp [drainTasks, successPayload, h, payloadOf, ih]
          | failure e => simp [drainTasks, successPayload, h, payloadOf, ih]

theorem progressPairs_settleEv (i : Nat) (oc : SearchOutcome) (evs : List Ev) :
    progressPairs (settleEv i oc :: evs) = progressPairs evs := by
  cases oc <;> simp [progressPairs, settleEv]

theorem drainTasks_progressPairs (searches : List (WebSearchItem × SearchOutcome))
    (total : Nat) :
    ∀ (order : List Nat) (c : Nat),
      progressPairs (drainTasks searches total order c).1
        = (List.range' (c + 1) order.length).map (fun k => (k, total)) := by
  intro order
  induction order with
  | nil => intro c; simp [drainTasks, progressPairs]
  | cons i rest ih =>
      intro c
      cases h : searches[i]? with
      | none =>
          simp only [drainTasks, h, List.length_cons, List.range']
          simp only [progressPairs, List.filterMap_cons, List.map_cons]
          exact congrArg _ (ih (c + 1))
      | some p =>
          obtain ⟨item, oc⟩ := p
          simp only [drainTasks, h, List.length_cons, List.range']
          rw [show (settleEv i oc :: Ev.progress (c + 1) total ::
                (drainTasks searches total rest (c + 1)).1)
              = settleEv i oc :: (Ev.progress (c + 1) total ::
                (drainTasks searches total rest (c + 1)).1) from rfl]
          rw [progressPairs_settleEv]
          simp only [progressPairs, List.filterMap_cons, List.map_cons]
          exact congrArg _ (ih (c + 1))

theorem progressPairs_startBanner (t : Nat) (evs : List Ev) :
    progressPairs (Ev.startBanner t :: evs) = progressPairs evs := by
  simp [progressPairs]

theorem progressPairs_append (l m : List Ev) :
    progressPairs (l ++ m) = progressPairs l ++ progressPairs m := by
  simp [progressPairs]

theorem progressPairs_starts (sp : List (WebSearchItem × SearchOutcome)) :
    progressPairs (sp.enum.map fun p => Ev.searchStart (p.1 + 1) p.2.1.query) = [] := by
  rw [progressPairs, List.filterMap_map]
  exact List.filterMap_eq_nil_iff.mpr (fun a _ => rfl)

theorem progressPairs_doneBanner (n : Nat) :
    progressPairs [Ev.doneBanner n] = [] := by
  simp [progressPairs]

theorem perform_progressPairs (search_plan : List (WebSearchItem × SearchOutcome))
    (total_searches : Nat) (order : List Nat) :
    progressPairs (perform_multiple_searches search_plan total_searches order).events
      = (List.range' 1 order.length).map (fun k => (k, search_plan.length)) := by
  show progressPairs (Ev.startBanner total_searches ::
      ((search_plan.enum.map fun p => Ev.searchStart (p.1 + 1) p.2.1.query)
        ++ (drainTasks search_plan search_plan.length order 0).1
        ++ [Ev.doneBanner (drainTasks search_plan search_plan.length order 0).2.length])) = _
  rw [progressPairs_startBanner, progressPairs_append, progressPairs_append,
    progressPairs_starts, progressPairs_doneBanner,
    drainTasks_progressPairs search_plan search_plan.length order 0]
  simp

theorem range_filterMap_successPayload :
    ∀ (searches : List (WebSearchItem × SearchOutcome)),
      (List.range searches.length).filterMap (successPayload searches)
        = searches.filterMap (fun p => payloadOf p.2) := by
  intro searches
  induction searches with
  | nil => simp
  | cons hd tl ih =>
      rw [List.length_cons, List.range_succ_eq_map, List.filterMap_cons,
        List.filterMap_map, List.filterMap_cons]
      have hhead : successPayload (hd :: tl) 0 = payloadOf hd.2 := by
        obtain ⟨item, oc⟩ := hd
        cases oc <;> simp [successPayload, payloadOf]
      have htail : (List.range tl.length).filterMap
          (successPayload (hd :: tl) ∘ Nat.succ) = tl.filterMap (fun p => payloadOf p.2) := by
        rw [← ih]
        apply List.filterMap_congr
        intro i _
        simp [successPayload, Function.comp, Nat.succ_eq_add_one, List.getElem?_cons_succ]
      rw [hhead, htail]

theorem length_filterMap_payload_add_failures :
    ∀ (searches : List (WebSearchItem × SearchOutcome)),
      (searches.filterMap (fun p => payloadOf p.2)).length
        + searches.countP (fun p => (p.2).isFailure) = searches.length := by
  intro searches
  induction searches with
  | nil => simp
  | cons hd tl ih =>
      obtain ⟨item, oc⟩ := hd
      cases oc with
      | success pay =>
          have h1 : List.filterMap (fun p => payloadOf p.2)
              ((item, SearchOutcome.success pay) :: tl)
              = pay :: tl.filterMap (fun p => payloadOf p.2) :=
            List.filterMap_cons_some rfl
          have h2 : List.countP (fun p => (p.2).isFailure)
              ((item, SearchOutcome.success pay) :: tl)
              = List.countP (fun p => (p.2).isFailure) tl := by
            rw [List.countP_cons]
            simp [SearchOutcome.isFailure]
          rw [h1, h2, List.length_cons, List.length_cons]
          omega
      | failure e =>
          have h1 : List.filterMap (fun p => payloadOf p.2)
              ((item, SearchOutcome.failure e) :: tl)
              = tl.filterMap (fun p => payloadOf p.2) :=
            List.filterMap_cons_none rfl
          have h2 : List.countP (fun p => (p.2).isFailure)
              ((item, SearchOutcome.failure e) :: tl)
              = List.countP (fun p => (p.2).isFailure) tl + 1 := by
            rw [List.countP_cons]
            simp [SearchOutcome.isFailure]
          rw [h1, h2, List.length_cons]
          omega

/-- Sample plan with one succeeding and one failing search, drained with the
second-submitted task finishing first. -/
def sampleSearches : List (WebSearchItem × SearchOutcome) :=
  [({ query := "q1", reason := "r1" }, SearchOutcome.success "p1"),
   ({ query := "q2", reason := "r2" }, SearchOutcome.failure "boom")]

/-- Sample plan in which every search fails. -/
def sampleAllFail : List (WebSearchItem × SearchOutcome) :=
  [({ query := "q1", reason := "r1" }, SearchOutcome.failure "e1")]

/-- C1: for every work plan of size N whose subtasks include exactly k < N failing
searches, `perform_multiple_searches` (drained in any completion order) returns a
sequence of exactly N − k successful payloads and emits exactly N
running-completed-count progress events, one per settled task regardless of
whether that task succeeded or failed. -/
theorem perform_multiple_searches_counts
    (searches : List (WebSearchItem × SearchOutcome)) (total_searches : Nat)
    (order : List Nat) (horder : order.Perm (List.range searches.length))
    (hk : searches.countP (fun p => (p.2).isFailure) < searches.length) :
    (perform_multiple_searches searches total_searches order).results.length
        = searches.length - searches.countP (fun p => (p.2).isFailure) ∧
    (progressCounts (perform_multiple_searches searches total_searches order).events).length
        = searches.length := by
  have hres : (perform_multiple_searches searches total_searches order).results
      = order.filterMap (successPayload searches) :=
    drainTasks_results searches searches.length order 0
  have hperm := (horder.filterMap (successPayload searches)).length_eq
  rw [range_filterMap_successPayload] at hperm
  have hsum := length_filterMap_payload_add_failures searches
  have hlen : order.length = searches.length := by
    simpa using horder.length_eq
  constructor
  · rw [hres, hperm]
    omega
  · rw [progressCounts, List.length_map, perform_progressPairs, List.length_map,
      List.length_range', hlen]

theorem perform_multiple_searches_counts_witness :
    (perform_multiple_searches sampleSearches 2 [1, 0]).results.length
        = sampleSearches.length - sampleSearches.countP (fun p => (p.2).isFailure) ∧
    (progressCounts (perform_multiple_searches sampleSearches 2 [1, 0]).events).length
        = sampleSearches.length :=
  perform_multiple_searches_counts sampleSearches 2 [1, 0] (by decide) (by decide)

theorem chain_lt_range' : ∀ (n s : Nat), List.Chain' (fun a b => a < b) (List.range' s n) := by
  intro n
  induction n with
  | zero => intro s; simp [List.range']
  | succ m ih =>
      intro s
      simp only [List.range']
      rw [List.chain'_cons']
      refine ⟨?_, ih (s + 1)⟩
      intro y hy
      cases m with
      | zero => simp [List.range'] at hy
      | succ k =>
          simp only [List.range', List.head?_cons, Option.mem_def, Option.some.injEq] at hy
          omega

theorem getLast_range'_one (m : Nat) :
    (List.range' 1 (m + 1)).getLast? = some (m + 1) := by
  rw [List.range'_concat, List.getLast?_concat]
  congr 1
  omega

/-- C6: for a work plan of size N drained in any completion order, the
completed-count values reported by the per-settlement progress events are
1, 2, ..., N out of N: strictly increasing, and the final such event reports
exactly N completed out of N. -/
theorem progress_counts_increasing
    (searches : List (WebSearchItem × SearchOutcome)) (total_searches : Nat)
    (order : List Nat) (horder : order.Perm (List.range searches.length)) :
    progressPairs (perform_multiple_searches searches total_searches order).events
        = (List.range' 1 searches.length).map (fun c => (c, searches.length)) ∧
    List.Chain' (fun a b => a < b)
        (progressCounts (perform_multiple_searches searches total_searches order).events) ∧
    (0 < searches.length →
      (progressPairs
          (perform_multiple_searches searches total_searches order).events).getLast?
        = some (searches.length, searches.length)) := by
  have hlen : order.length = searches.length := by simpa using horder.length_eq
  have hpairs := perform_progressPairs searches total_searches order
  rw [hlen] at hpairs
  refine ⟨hpairs, ?_, ?_⟩
  · rw [progressCounts, hpairs, List.map_map]
    have hid : (Prod.fst ∘ fun c : Nat => ((c, searches.length) : Nat × Nat)) = id := by
      funext c; rfl
    rw [hid, List.map_id]
    exact chain_lt_range' searches.length 1
  · intro hpos
    obtain ⟨m, hm⟩ : ∃ m, searches.length = m + 1 := ⟨searches.length - 1, by omega⟩
    rw [hpairs, hm, List.range'_concat, List.map_append, List.map_cons, List.map_nil,
      List.getLast?_concat]
    have h1 : 1 + 1 * m = m + 1 := by omega
    rw [h1]

theorem progress_counts_increasing_witness :
    progressPairs (perform_multiple_searches sampleSearches 2 [1, 0]).events
        = (List.range' 1 sampleSearches.length).map (fun c => (c, sampleSearches.length)) ∧
    List.Chain' (fun a b => a < b)
        (progressCounts (perform_multiple_searches sampleSearches 2 [1, 0]).events) ∧
    (0 < sampleSearches.length →
      (progressPairs (perform_multiple_searches sampleSearches 2 [1, 0]).events).getLast?
        = some (sampleSearches.length, sampleSearches.length)) :=
  progress_counts_increasing sampleSearches 2 [1, 0] (by decide)

/-- C4: a failing search subtask is fully contained by `perform_multiple_searches`:
every returned payload comes from a successful subtask (failures contribute
nothing), an all-failing plan returns the empty sequence rather than raising, and
every sibling task still settles — one progress event per task. The executor total
function itself witnesses that no exception escapes. -/
theorem failing_searches_contained
    (searches : List (WebSearchItem × SearchOutcome)) (total_searches : Nat)
    (order : List Nat) (horder : order.Perm (List.range searches.length)) :
    (∀ r ∈ (perform_multiple_searches searches total_searches order).results,
        ∃ (i : Nat) (item : WebSearchItem), searches[i]? = some (item, SearchOutcome.success r)) ∧
    ((∀ p ∈ searches, (p.2).isFailure = true) →
        (perform_multiple_searches searches total_searches order).results = []) ∧
    (progressCounts
        (perform_multiple_searches searches total_searches order).events).length
      = searches.length := by
  have hres : (perform_multiple_searches searches total_searches order).results
      = order.filterMap (successPayload searches) :=
    drainTasks_results searches searches.length order 0
  have hlen : order.length = searches.length := by simpa using horder.length_eq
  refine ⟨?_, ?_, ?_⟩
  · intro r hr
    rw [hres] at hr
    obtain ⟨i, _, hsp⟩ := List.mem_filterMap.mp hr
    cases hgi : searches[i]? with
    | none => simp [successPayload, hgi] at hsp
    | some p =>
        obtain ⟨item, oc⟩ := p
        cases oc with
        | success pay =>
            simp only [successPayload, hgi, Option.some.injEq] at hsp
            exact ⟨i, item, by rw [hgi, hsp]⟩
        | failure e => simp [successPayload, hgi] at hsp
  · intro hall
    rw [hres, List.filterMap_eq_nil_iff]
    intro i _
    cases hgi : searches[i]? with
    | none => simp [successPayload, hgi]
    | some p =>
        obtain ⟨item, oc⟩ := p
        cases oc with
        | success pay =>
            have := hall _ (List.getElem?_mem hgi)
            simp [SearchOutcome.isFailure] at this
        | failure e => simp [successPayload, hgi]
  · rw [progressCounts, List.length_map, perform_progressPairs, List.length_map,
      List.length_range', hlen]

theorem failing_searches_contained_witness :
    (∀ r ∈ (perform_multiple_searches sampleAllFail 1 [0]).results,
        ∃ (i : Nat) (item : WebSearchItem), sampleAllFail[i]? = some (item, SearchOutcome.success r)) ∧
    ((∀ p ∈ sampleAllFail, (p.2).isFailure = true) →
        (perform_multiple_searches sampleAllFail 1 [0]).results = []) ∧
    (progressCounts (perform_multiple_searches sampleAllFail 1 [0]).events).length
      = sampleAllFail.length :=
  failing_searches_contained sampleAllFail 1 [0] (by decide)

/-- Boolean classifier for the per-task start events. -/
def isStartEv : Ev → Bool
  | Ev.searchStart _ _ => true
  | _ => false

theorem drainTasks_no_searchStart (searches : List (WebSearchItem × SearchOutcome))
    (total : Nat) :
    ∀ (order : List Nat) (c : Nat) (e : Ev),
      e ∈ (drainTasks searches total order c).1 → isStartEv e = false := by
  intro order
  induction order with
  | nil => intro c e he; simp [drainTasks] at he
  | cons i rest ih =>
      intro c e he
      cases hgi : searches[i]? with
      | none =>
          simp only [drainTasks, hgi, List.mem_cons] at he
          rcases he with rfl | he
          · rfl
          · exact ih (c + 1) e he
      | some p =>
          obtain ⟨item, oc⟩ := p
          simp only [drainTasks, hgi, List.mem_cons] at he
          rcases he with rfl | rfl | he
          · cases oc <;> rfl
          · rfl
          · exact ih (c + 1) e he

/-- C8: `perform_multiple_searches` starts one concurrent task per work item — the
events of the trace are the start banner, then the start event of every task in
submission order, all before any settlement-phase event — and the returned
payloads are collected along the completion order `order` (first finished, first
collected), not along submission order. -/
theorem fanout_starts_then_collects
    (searches : List (WebSearchItem × SearchOutcome)) (total_searches : Nat)
    (order : List Nat) (horder : order.Perm (List.range searches.length)) :
    (∃ rest, (perform_multiple_searches searches total_searches order).events
        = Ev.startBanner total_searches ::
            ((searches.enum.map fun p => Ev.searchStart (p.1 + 1) p.2.1.query) ++ rest) ∧
        (∀ e ∈ searches.enum.map fun p => Ev.searchStart (p.1 + 1) p.2.1.query,
            isStartEv e = true) ∧
        (∀ e ∈ rest, isStartEv e = false)) ∧
    (perform_multiple_searches searches total_searches order).results
        = order.filterMap (successPayload searches) := by
  refine ⟨⟨(drainTasks searches searches.length order 0).1
      ++ [Ev.doneBanner (drainTasks searches searches.length order 0).2.length],
      ?_, ?_, ?_⟩, ?_⟩
  · simp [perform_multiple_searches]
  · intro e he
    obtain ⟨p, _, rfl⟩ := List.mem_map.mp he
    rfl
  · intro e he
    rcases List.mem_append.mp he with h | h
    · exact drainTasks_no_searchStart searches searches.length order 0 e h
    · simp only [List.mem_singleton] at h
      rw [h]; rfl
  · exact drainTasks_results searches searches.length order 0

theorem fanout_starts_then_collects_witness :
    (∃ rest, (perform_multiple_searches sampleSearches 2 [1, 0]).events
        = Ev.startBanner 2 ::
            ((sampleSearches.enum.map fun p => Ev.searchStart (p.1 + 1) p.2.1.query) ++ rest) ∧
        (∀ e ∈ sampleSearches.enum.map fun p => Ev.searchStart (p.1 + 1) p.2.1.query,
            isStartEv e = true) ∧
        (∀ e ∈ rest, isStartEv e = false)) ∧
    (perform_multiple_searches sampleSearches 2 [1, 0]).results
        = [1, 0].filterMap (successPayload sampleSearches) :=
  fanout_starts_then_collects sampleSearches 2 [1, 0] (by decide)

/-- Data-level view of string append (String.append concatenates the character
lists). -/
theorem str_data_append : ∀ (a b : String), (a ++ b).data = a.data ++ b.data := by
  intro a b
  cases a
  cases b
  rfl

/-- One yielded string extends another: its character data is an initial segment
of the character data of the other. -/
def IsPfx (a b : String) : Prop := a.data <+: b.data

theorem IsPfx_refl (a : String) : IsPfx a a := List.prefix_refl _

theorem IsPfx_append (a b : String) : IsPfx a (a ++ b) := by
  rw [IsPfx, str_data_append]
  exact List.prefix_append _ _

theorem IsPfx_trans {a b c : String} (h1 : IsPfx a b) (h2 : IsPfx b c) : IsPfx a c :=
  List.IsPrefix.trans h1 h2

/-- Left fold appending a batch of drained messages onto the accumulated output,
in drain order: `for message in batch: accumulated_output += message`. -/
def appendAll (acc : String) (msgs : List String) : String :=
  List.foldl (fun a m => a ++ m) acc msgs

theorem appendAll_append (acc : String) (l m : List String) :
    appendAll acc (l ++ m) = appendAll (appendAll acc l) m :=
  List.foldl_append _ _ _ _

theorem appendAll_pfx : ∀ (l : List String) (acc : String),
    IsPfx acc (appendAll acc l) := by
  intro l
  induction l with
  | nil => intro acc; exact IsPfx_refl acc
  | cons m rest ih =>
      intro acc
      exact IsPfx_trans (IsPfx_append acc m) (ih (acc ++ m))

/-- The monitoring loop of `ResearchManager.run`: one entry of `batches` per
iteration of `while not research_task.done()`, holding the messages found queued
at the drain of that iteration. A non-empty drain appends every message to the
accumulated output and yields it once; an empty drain yields nothing. Returns the
yielded strings and the final accumulated output. -/
def pollLoop : String → List (List String) → List String × String
  | acc, [] => ([], acc)
  | acc, batch :: rest =>
    if batch.isEmpty then pollLoop acc rest
    else
      ((appendAll acc batch) :: (pollLoop (appendAll acc batch) rest).1,
        (pollLoop (appendAll acc batch) rest).2)

/-- The final drain of `ResearchManager.run` after the task is observed done:
each remaining message is appended and the accumulated output yielded once per
message. -/
def finalDrainLoop : String → List String → List String × String
  | acc, [] => ([], acc)
  | acc, m :: ms =>
      ((acc ++ m) :: (finalDrainLoop (acc ++ m) ms).1,
        (finalDrainLoop (acc ++ m) ms).2)

/-- The first yielded frame of `ResearchManager.run`: start banner, trace id and
trace link. -/
def initialFrame (query trace_id : String) : String :=
  "🚀 **Starting Deep Research** for query: *" ++ query ++ "*\n\n"
    ++ "📊 **Trace ID**: " ++ trace_id ++ "\n"
    ++ "🔗 [View trace](https://platform.openai.com/traces/trace?trace_id="
    ++ trace_id ++ ")\n\n"

/-- Delta of the second yielded frame: the agent start banner. -/
def agentStartFrame : String :=
  "## 🤖 Starting Research Manager Agent\n"
    ++ "⚙️ **Agent**: Research Manager is orchestrating the complete research workflow...\n\n"

/-- Header appended before the final report on the success path. -/
def reportHeader : String := "# 📊 Final Research Report\n\n"

/-- The error notice appended on the failure path (the `except` block). -/
def errorNotice (e : String) : String :=
  "❌ **Error occurred**: " ++ e ++ "\n\n"
    ++ "Please try again or contact support if the issue persists."

/-- Text appended to the accumulated output by the terminal frame. -/
def finalDelta : Except String String → String
  | Except.ok out => reportHeader ++ out
  | Except.error e => errorNotice e

/-- Observable schedule of one `ResearchManager.run` invocation: the batches of
messages found queued at each poll iteration while the orchestrator task is not
done, the messages pushed between the last poll and task completion, and the
outcome of the task — `Except.ok` with `str(result.final_output)` when
`await research_task` returns, `Except.error` with `str(e)` when it raises. -/
structure PushSchedule where
  pushesPerPoll : List (List String)
  finalPushes : List String
  outcome : Except String String

/-- The initial clear loop of `ResearchManager.run`: `get_nowait` until the
queue is empty, discarding every message; returns the queue contents left
afterwards. -/
def drainDiscard : List String → List String
  | [] => []
  | _ :: q => drainDiscard q

theorem drainDiscard_eq_nil : ∀ q : List String, drainDiscard q = [] := by
  intro q
  induction q with
  | nil => rfl
  | cons _ _ ih => exact ih

/-- Whatever the clear loop left in the queue is found by the first subsequent
drain: merged into the first poll batch when the loop runs at all. -/
def mergeFirst (residue : List String) : List (List String) → List (List String)
  | [] => []
  | b :: bs => (residue ++ b) :: bs

/-- When the task is done before the first poll check, the residue of the clear
loop is found by the final drain instead. -/
def leftover (residue : List String) : List (List String) → List String
  | [] => residue
  | _ :: _ => []

/-- Model of `ResearchManager.run` as the finite list of strings it yields for one
invocation: clears the queue, yields the initial frame, yields the agent start
frame, polls and yields cumulatively while the orchestrator task runs, drains
once more after completion, then yields the final report frame (success) or the
error-notice frame (failure). -/
def ResearchManager.run (query trace_id : String) (initQueue : List String)
    (s : PushSchedule) : List String :=
  let residue := drainDiscard initQueue
  let y0 := initialFrame query trace_id
  let y1 := y0 ++ agentStartFrame
  let p := pollLoop y1 (mergeFirst residue s.pushesPerPoll)
  let d := finalDrainLoop p.2 (leftover residue s.pushesPerPoll ++ s.finalPushes)
  y0 :: y1 :: (p.1 ++ d.1 ++ [d.2 ++ finalDelta s.outcome])

theorem pollLoop_cons_pos {b : List String} (hb : ¬b.isEmpty = true)
    (rest : List (List String)) (acc : String) :
    pollLoop acc (b :: rest)
      = ((appendAll acc b) :: (pollLoop (appendAll acc b) rest).1,
          (pollLoop (appendAll acc b) rest).2) := by
  simp only [pollLoop, if_neg hb]

theorem pollLoop_cons_neg {b : List String} (hb : b.isEmpty = true)
    (rest : List (List String)) (acc : String) :
    pollLoop acc (b :: rest) = pollLoop acc rest := by
  simp only [pollLoop, if_pos hb]

theorem pollLoop_acc : ∀ (bs : List (List String)) (acc : String),
    (pollLoop acc bs).2 = appendAll acc bs.flatten := by
  intro bs
  induction bs with
  | nil => intro acc; simp [pollLoop, appendAll]
  | cons b rest ih =>
      intro acc
      by_cases hb : b.isEmpty
      · have hbnil : b = [] := List.isEmpty_iff.mp hb
        rw [pollLoop_cons_neg hb, ih, hbnil, List.flatten_cons, List.nil_append]
      · rw [pollLoop_cons_pos hb, List.flatten_cons, appendAll_append]
        exact ih (appendAll acc b)

theorem finalDrainLoop_acc : ∀ (ms : List String) (acc : String),
    (finalDrainLoop acc ms).2 = appendAll acc ms := by
  intro ms
  induction ms with
  | nil => intro acc; simp [finalDrainLoop, appendAll]
  | cons m rest ih =>
      intro acc
      simp only [finalDrainLoop, ih]
      rfl

theorem pollLoop_chain : ∀ (bs : List (List String)) (acc : String),
    List.Chain' IsPfx (acc :: (pollLoop acc bs).1) := by
  intro bs
  induction bs with
  | nil => intro acc; simp [pollLoop]
  | cons b rest ih =>
      intro acc
      by_cases hb : b.isEmpty
      · rw [pollLoop_cons_neg hb]
        exact ih acc
      · rw [pollLoop_cons_pos hb, List.chain'_cons]
        exact ⟨appendAll_pfx b acc, ih (appendAll acc b)⟩

theorem finalDrainLoop_chain : ∀ (ms : List String) (acc : String),
    List.Chain' IsPfx (acc :: (finalDrainLoop acc ms).1) := by
  intro ms
  induction ms with
  | nil => intro acc; simp [finalDrainLoop]
  | cons m rest ih =>
      intro acc
      simp only [finalDrainLoop]
      rw [List.chain'_cons]
      exact ⟨IsPfx_append acc m, ih (acc ++ m)⟩

theorem pollLoop_getLast : ∀ (bs : List (List String)) (acc : String),
    (acc :: (pollLoop acc bs).1).getLast? = some ((pollLoop acc bs).2) := by
  intro bs
  induction bs with
  | nil => intro acc; simp [pollLoop]
  | cons b rest ih =>
      intro acc
      by_cases hb : b.isEmpty
      · rw [pollLoop_cons_neg hb]
        exact ih acc
      · rw [pollLoop_cons_pos hb, List.getLast?_cons_cons]
        exact ih (appendAll acc b)

theorem finalDrainLoop_getLast : ∀ (ms : List String) (acc : String),
    (acc :: (finalDrainLoop acc ms).1).getLast? = some ((finalDrainLoop acc ms).2) := by
  intro ms
  induction ms with
  | nil => intro acc; simp [finalDrainLoop]
  | cons m rest ih =>
      intro acc
      simp only [finalDrainLoop]
      rw [List.getLast?_cons_cons]
      exact ih (acc ++ m)

theorem chain_glue {R : String → String → Prop} :
    ∀ (l : List String) (a b : String) (m : List String),
      List.Chain' R (a :: l) → (a :: l).getLast? = some b →
      List.Chain' R (b :: m) → List.Chain' R (a :: (l ++ m)) := by
  intro l
  induction l with
  | nil =>
      intro a b m hc hl hm
      simp only [List.getLast?_singleton, Option.some.injEq] at hl
      rw [hl]
      exact hm
  | cons c l' ih =>
      intro a b m hc hl hm
      rw [List.chain'_cons] at hc
      rw [List.getLast?_cons_cons] at hl
      have := ih c b m hc.2 hl hm
      rw [List.cons_append, List.chain'_cons]
      exact ⟨hc.1, this⟩

theorem mergeFirst_nil (bs : List (List String)) : mergeFirst [] bs = bs := by
  cases bs with
  | nil => rfl
  | cons b rest => simp [mergeFirst]

theorem leftover_nil (bs : List (List String)) : leftover [] bs = [] := by
  cases bs with
  | nil => rfl
  | cons b rest => rfl

theorem getLast?_cons_cons_append (a b x : String) (l m : List String) :
    (a :: b :: (l ++ m ++ [x])).getLast? = some x := by
  rw [List.getLast?_cons_cons]
  rw [show b :: (l ++ m ++ [x]) = (b :: (l ++ m)) ++ [x] from by simp]
  exact List.getLast?_concat _

theorem run_getLast_eq (query trace_id : String) (initQueue : List String)
    (s : PushSchedule) :
    (ResearchManager.run query trace_id initQueue s).getLast?
      = some (appendAll (initialFrame query trace_id ++ agentStartFrame)
          (s.pushesPerPoll.flatten ++ s.finalPushes) ++ finalDelta s.outcome) := by
  simp only [ResearchManager.run, drainDiscard_eq_nil, mergeFirst_nil, leftover_nil,
    List.nil_append]
  rw [getLast?_cons_cons_append]
  rw [finalDrainLoop_acc, pollLoop_acc, ← appendAll_append]

/-- C2: for every query and every behaviour of the remote calls (every schedule
and outcome, including the planning or synthesis call raising),
`ResearchManager.run` yields a non-empty terminating sequence and never raises:
its final element ends with the report header plus the final report when the
orchestrator task returned, and with the formatted error notice when it raised.
(The model is a total function into finite lists, so termination and absence of
escaping exceptions hold for every input by construction.) -/
theorem run_terminates_with_report_or_error (query trace_id : String)
    (initQueue : List String) (s : PushSchedule) :
    ResearchManager.run query trace_id initQueue s ≠ [] ∧
    ((∃ out, s.outcome = Except.ok out ∧
        ∃ acc, (ResearchManager.run query trace_id initQueue s).getLast?
          = some (acc ++ (reportHeader ++ out))) ∨
     (∃ e, s.outcome = Except.error e ∧
        ∃ acc, (ResearchManager.run query trace_id initQueue s).getLast?
          = some (acc ++ errorNotice e))) := by
  constructor
  · simp only [ResearchManager.run]
    exact List.cons_ne_nil _ _
  · have h := run_getLast_eq query trace_id initQueue s
    cases ho : s.outcome with
    | ok out =>
        left
        refine ⟨out, rfl, appendAll (initialFrame query trace_id ++ agentStartFrame)
            (s.pushesPerPoll.flatten ++ s.finalPushes), ?_⟩
        rw [h, ho]
        rfl
    | error e =>
        right
        refine ⟨e, rfl, appendAll (initialFrame query trace_id ++ agentStartFrame)
            (s.pushesPerPoll.flatten ++ s.finalPushes), ?_⟩
        rw [h, ho]
        rfl

/-- C3: within one invocation of `ResearchManager.run`, the yielded strings are
prefix-monotonic — each yield is a prefix of the next — on both the success and
the failure path (the accumulated output only ever grows by appending). -/
theorem run_yields_monotone (query trace_id : String) (initQueue : List String)
    (s : PushSchedule) :
    List.Chain' IsPfx (ResearchManager.run query trace_id initQueue s) := by
  simp only [ResearchManager.run, drainDiscard_eq_nil, mergeFirst_nil, leftover_nil,
    List.nil_append]
  rw [List.chain'_cons]
  refine ⟨IsPfx_append _ _, ?_⟩
  rw [List.append_assoc]
  exact chain_glue _ _ _ _ (pollLoop_chain _ _) (pollLoop_getLast _ _)
    (chain_glue _ _ _ _ (finalDrainLoop_chain _ _) (finalDrainLoop_getLast _ _)
      (List.chain'_cons.mpr ⟨IsPfx_append _ _, List.chain'_singleton _⟩))

/-- C5: every progress message pushed before the orchestrator task completes is
yielded exactly once and in push order: the final accumulated output is exactly
the two initial frames followed by the concatenation, in push order, of every
pushed message (each appearing once, none dropped, none duplicated), followed by
the text of the terminal frame. -/
theorem run_delivers_pushed_messages_once (query trace_id : String)
    (initQueue : List String) (s : PushSchedule) :
    (ResearchManager.run query trace_id initQueue s).getLast?
      = some (appendAll (initialFrame query trace_id ++ agentStartFrame)
          (s.pushesPerPoll.flatten ++ s.finalPushes) ++ finalDelta s.outcome) :=
  run_getLast_eq query trace_id initQueue s

/-- C10: the progress channel is one module-level queue shared by all
invocations, and `ResearchManager.run` first removes and discards everything
queued before yielding anything: its output is completely independent of the
queue contents found at call time, so no event pushed before the call begins
ever appears in the output of that call. -/
theorem run_clears_stale_queue (query trace_id : String) (initQueue : List String)
    (s : PushSchedule) :
    ResearchManager.run query trace_id initQueue s
      = ResearchManager.run query trace_id [] s := by
  simp only [ResearchManager.run, drainDiscard_eq_nil]

/-- A string whose last character is a newline — true of every rendered progress
message pushed by the pipeline. -/
def endsNL (x : String) : Prop := x.data.getLast? = some '\n'

instance endsNL_decidable (x : String) : Decidable (endsNL x) :=
  inferInstanceAs (Decidable (x.data.getLast? = some '\n'))

theorem endsNL_append (a b : String) (h : endsNL b) : endsNL (a ++ b) := by
  rw [endsNL, str_data_append, List.getLast?_append]
  rw [endsNL] at h
  rw [h]
  rfl

theorem render_endsNL : ∀ ev : Ev, endsNL (render ev) := by
  intro ev
  cases ev <;> simp only [render] <;> first
    | decide
    | exact endsNL_append _ _ (by decide)

theorem initialFrame_endsNL (q t : String) : endsNL (initialFrame q t) := by
  unfold initialFrame
  exact endsNL_append _ _ (by decide)

theorem agentStartFrame_endsNL : endsNL agentStartFrame := by
  unfold agentStartFrame
  exact endsNL_append _ _ (by decide)

theorem appendAll_endsNL (acc : String) (b : List String)
    (hb : ¬b.isEmpty = true) (h : ∀ m ∈ b, endsNL m) : endsNL (appendAll acc b) := by
  obtain rfl | ⟨L, x, rfl⟩ := List.eq_nil_or_concat b
  · simp at hb
  · rw [List.concat_eq_append, appendAll_append]
    exact endsNL_append _ _ (h x (by simp))

theorem errorNotice_data_getLast (e : String) :
    (errorNotice e).data.getLast? = some '.' := by
  rw [errorNotice, str_data_append, List.getLast?_append]
  rw [show ("Please try again or contact support if the issue persists." :
      String).data.getLast? = some '.' from by decide]
  rfl

theorem endsNL_not_notice {y : String} (e : String) (h : endsNL y) :
    ¬ ∃ p, y = p ++ errorNotice e := by
  rintro ⟨p, rfl⟩
  rw [endsNL, str_data_append, List.getLast?_append, errorNotice_data_getLast] at h
  rw [show (some '.').or p.data.getLast? = some '.' from rfl] at h
  injection h with h'
  exact absurd h' (by decide)

theorem pollLoop_mem : ∀ (bs : List (List String)) (acc y : String),
    y ∈ (pollLoop acc bs).1 →
    ∃ a b, b ∈ bs ∧ ¬b.isEmpty = true ∧ y = appendAll a b := by
  intro bs
  induction bs with
  | nil => intro acc y hy; simp [pollLoop] at hy
  | cons b rest ih =>
      intro acc y hy
      by_cases hb : b.isEmpty
      · rw [pollLoop_cons_neg hb] at hy
        obtain ⟨a, b', hmem, hne, rfl⟩ := ih acc y hy
        exact ⟨a, b', List.mem_cons_of_mem _ hmem, hne, rfl⟩
      · rw [pollLoop_cons_pos hb] at hy
        rcases List.mem_cons.mp hy with rfl | hy'
        · exact ⟨acc, b, List.mem_cons_self _ _, hb, rfl⟩
        · obtain ⟨a, b', hmem, hne, rfl⟩ := ih (appendAll acc b) y hy'
          exact ⟨a, b', List.mem_cons_of_mem _ hmem, hne, rfl⟩

theorem finalDrainLoop_mem : ∀ (ms : List String) (acc y : String),
    y ∈ (finalDrainLoop acc ms).1 → ∃ a m, m ∈ ms ∧ y = a ++ m := by
  intro ms
  induction ms with
  | nil => intro acc y hy; simp [finalDrainLoop] at hy
  | cons m rest ih =>
      intro acc y hy
      simp only [finalDrainLoop, List.mem_cons] at hy
      rcases hy with rfl | hy'
      · exact ⟨acc, m, List.mem_cons_self _ _, rfl⟩
      · obtain ⟨a, m', hmem, rfl⟩ := ih (acc ++ m) y hy'
        exact ⟨a, m', List.mem_cons_of_mem _ hmem, rfl⟩

theorem run_eq_decomp (query trace_id : String) (initQueue : List String)
    (s : PushSchedule) :
    ∃ ys, ResearchManager.run query trace_id initQueue s
        = ys ++ [appendAll (initialFrame query trace_id ++ agentStartFrame)
            (s.pushesPerPoll.flatten ++ s.finalPushes) ++ finalDelta s.outcome] ∧
      ∀ y ∈ ys, y = initialFrame query trace_id ∨
        y = initialFrame query trace_id ++ agentStartFrame ∨
        (∃ a b, b ∈ s.pushesPerPoll ∧ ¬b.isEmpty = true ∧ y = appendAll a b) ∨
        (∃ a m, m ∈ s.finalPushes ∧ y = a ++ m) := by
  simp only [ResearchManager.run, drainDiscard_eq_nil, mergeFirst_nil, leftover_nil,
    List.nil_append]
  refine ⟨initialFrame query trace_id
      :: (initialFrame query trace_id ++ agentStartFrame)
      :: ((pollLoop (initialFrame query trace_id ++ agentStartFrame)
            s.pushesPerPoll).1
        ++ (finalDrainLoop (pollLoop (initialFrame query trace_id ++ agentStartFrame)
            s.pushesPerPoll).2 s.finalPushes).1), ?_, ?_⟩
  · rw [finalDrainLoop_acc, pollLoop_acc, appendAll_append]
    simp
  · intro y hy
    rcases List.mem_cons.mp hy with rfl | hy1
    · exact Or.inl rfl
    rcases List.mem_cons.mp hy1 with rfl | hy2
    · exact Or.inr (Or.inl rfl)
    rcases List.mem_append.mp hy2 with hP | hD
    · obtain ⟨a, bb, hbmem, hbne, rfl⟩ := pollLoop_mem _ _ _ hP
      exact Or.inr (Or.inr (Or.inl ⟨a, bb, hbmem, hbne, rfl⟩))
    · obtain ⟨a, m, hmmem, rfl⟩ := finalDrainLoop_mem _ _ _ hD
      exact Or.inr (Or.inr (Or.inr ⟨a, m, hmmem, rfl⟩))

/-- Behaviour of the remote agent calls during one orchestrated run: the outcome
of the planner call, the outcome of the remote call of the i-th search task, the
completion order of the search tasks, and the outcome of the writer call. -/
structure AgentBehaviour where
  planOutcome : Except String (List WebSearchItem)
  searchOutcome : Nat → SearchOutcome
  searchOrder : List Nat
  writeOutcome : Except String String

/-- Model of the `plan_research_searches` tool: the events it pushes and its
result — the `SearchPlan` it builds, or the exception raised by the awaited
planner call (the two events before the call are pushed either way). -/
def plan_research_searches (query : String)
    (oc : Except String (List WebSearchItem)) :
    List Ev × Except String SearchPlan :=
  match oc with
  | Except.error e => ([Ev.planningStart, Ev.analyzing query], Except.error e)
  | Except.ok searches =>
      ([Ev.planningStart, Ev.analyzing query,
        Ev.planningComplete searches.length, Ev.plannedHeader]
        ++ (searches.enum.map fun p => Ev.plannedItem (p.1 + 1) p.2.query p.2.reason)
        ++ [Ev.blank],
       Except.ok { searches := searches, total_searches := searches.length })

/-- Model of the `write_research_report` tool: the events it pushes and its
result — the markdown report, or the exception raised by the awaited writer call
(the three events before the call are pushed either way). -/
def write_research_report (search_results : List String)
    (oc : Except String String) : List Ev × Except String String :=
  match oc with
  | Except.error e =>
      ([Ev.writingStart, Ev.synthesizing search_results.length, Ev.analyzingPatterns],
       Except.error e)
  | Except.ok report =>
      ([Ev.writingStart, Ev.synthesizing search_results.length, Ev.analyzingPatterns,
        Ev.reportComplete, Ev.divider],
       Except.ok report)

/-- Model of `Runner.run(research_manager, ...)`: the Research Manager agent
follows its instructions — plan the searches, execute them all concurrently,
write the report — feeding the output of each stage to the next. A raise in the plan
or write call fails the whole task with that exception; search failures are
contained by the executor. Returns all events pushed during the run and the
outcome of the task. -/
def research_manager_run (query : String) (b : AgentBehaviour) :
    List Ev × Except String String :=
  match plan_research_searches query b.planOutcome with
  | (pEvs, Except.error e) => (pEvs, Except.error e)
  | (pEvs, Except.ok plan) =>
      let paired := plan.searches.enum.map fun p => (p.2, b.searchOutcome p.1)
      let ex := perform_multiple_searches paired plan.total_searches b.searchOrder
      match write_research_report ex.results b.writeOutcome with
      | (wEvs, Except.error e) => (pEvs ++ ex.events ++ wEvs, Except.error e)
      | (wEvs, Except.ok _) => (pEvs ++ ex.events ++ wEvs, b.writeOutcome)

/-- C7: if the remote call of the Plan stage raises, the orchestrator emits only
Plan-stage progress events — no Execute or Synthesize event is ever pushed — and
the stream terminates after exactly one additional error-notice frame: the
yielded sequence decomposes into earlier frames, none of which ends with the
error notice, followed by a single final frame carrying it. -/
theorem plan_failure_stops_pipeline (query trace_id : String) (initQueue : List String)
    (b : AgentBehaviour) (e : String) (s : PushSchedule)
    (hplan : b.planOutcome = Except.error e)
    (hpush : s.pushesPerPoll.flatten ++ s.finalPushes
      = ((research_manager_run query b).1).map render)
    (hout : s.outcome = (research_manager_run query b).2) :
    (∀ ev ∈ (research_manager_run query b).1, Ev.stage ev = Stage.plan) ∧
    (∃ ys acc, ResearchManager.run query trace_id initQueue s
        = ys ++ [acc ++ errorNotice e] ∧
      ∀ y ∈ ys, ¬ ∃ p, y = p ++ errorNotice e) := by
  have hrm : research_manager_run query b
      = ([Ev.planningStart, Ev.analyzing query], Except.error e) := by
    simp [research_manager_run, plan_research_searches, hplan]
  have houtE : s.outcome = Except.error e := by rw [hout, hrm]
  have hmsg : ∀ m ∈ s.pushesPerPoll.flatten ++ s.finalPushes, endsNL m := by
    intro m hm
    rw [hpush] at hm
    obtain ⟨ev, _, rfl⟩ := List.mem_map.mp hm
    exact render_endsNL ev
  constructor
  · intro ev hev
    rw [hrm] at hev
    rcases List.mem_cons.mp hev with rfl | hev1
    · rfl
    rcases List.mem_cons.mp hev1 with rfl | hev2
    · rfl
    · simp at hev2
  · obtain ⟨ys, heq, hys⟩ := run_eq_decomp query trace_id initQueue s
    refine ⟨ys, appendAll (initialFrame query trace_id ++ agentStartFrame)
        (s.pushesPerPoll.flatten ++ s.finalPushes), ?_, ?_⟩
    · rw [heq, houtE]
      rfl
    · intro y hy
      have hNL : endsNL y := by
        rcases hys y hy with rfl | rfl | ⟨a, bb, hbmem, hbne, rfl⟩ | ⟨a, m, hmmem, rfl⟩
        · exact initialFrame_endsNL query trace_id
        · exact endsNL_append _ _ agentStartFrame_endsNL
        · refine appendAll_endsNL a bb hbne ?_
          intro m hm
          exact hmsg m (List.mem_append_left _ (List.mem_flatten.mpr ⟨bb, hbmem, hm⟩))
        · exact endsNL_append _ _ (hmsg m (List.mem_append_right _ hmmem))
      exact endsNL_not_notice e hNL

/-- Concrete agent behaviour whose planner call raises. -/
def bWitness : AgentBehaviour :=
  { planOutcome := Except.error "boom",
    searchOutcome := fun _ => SearchOutcome.failure "x",
    searchOrder := [],
    writeOutcome := Except.ok "r" }

/-- Concrete schedule delivering exactly the events of `bWitness`'s failed run in
one poll batch. -/
def sWitness : PushSchedule :=
  { pushesPerPoll := [((research_manager_run "X" bWitness).1).map render],
    finalPushes := [],
    outcome := (research_manager_run "X" bWitness).2 }

theorem plan_failure_stops_pipeline_witness :
    (∀ ev ∈ (research_manager_run "X" bWitness).1, Ev.stage ev = Stage.plan) ∧
    (∃ ys acc, ResearchManager.run "X" "t0" [] sWitness
        = ys ++ [acc ++ errorNotice "boom"] ∧
      ∀ y ∈ ys, ¬ ∃ p, y = p ++ errorNotice "boom") :=
  plan_failure_stops_pipeline "X" "t0" [] bWitness "boom" sWitness rfl
    (by simp [sWitness]) rfl

/-- Whitespace characters stripped by Python `str.strip()` (ASCII set; the source
guards with `if not query.strip()`). -/
def pyIsSpace (c : Char) : Bool :=
  c == ' ' || c == '\t' || c == '\n' || c == '\r' || c == '\u000B' || c == '\u000C'

/-- Python `str.strip()`: remove leading and trailing whitespace. -/
def pyStrip (s : String) : String :=
  String.mk (((s.data.dropWhile pyIsSpace).reverse.dropWhile pyIsSpace).reverse)

/-- The warning yielded for a blank query. -/
def blankQueryWarning : String := "⚠️ Please enter a research query to get started."

/-- Model of `run_research_with_progress` in deep_research.py: a blank query
yields the warning and returns early; any other query constructs a
ResearchManager and streams its run, abstracted here as `managerRun`. -/
def run_research_with_progress (query : String)
    (managerRun : String → List String) : List String :=
  if pyStrip query = "" then [blankQueryWarning]
  else managerRun query

theorem pyStrip_all_space (query : String) (h : query.data.all pyIsSpace = true) :
    pyStrip query = "" := by
  rw [pyStrip]
  have h1 : query.data.dropWhile pyIsSpace = [] := by
    rw [List.dropWhile_eq_nil_iff]
    intro x hx
    exact List.all_eq_true.mp h x hx
  rw [h1]
  rfl

/-- C9: for every query string that is empty or consists only of whitespace, the
public streaming entry point yields exactly one warning message and terminates
without constructing a ResearchManager or starting any research — its output is
the singleton warning, independent of whatever any manager run would yield. -/
theorem blank_query_yields_warning (query : String)
    (managerRun : String → List String) (h : query.data.all pyIsSpace = true) :
    run_research_with_progress query managerRun = [blankQueryWarning] := by
  have hc : pyStrip query = "" := pyStrip_all_space query h
  simp [run_research_with_progress, hc]

theorem blank_query_yields_warning_witness :
    run_research_with_progress " \t\n" (fun q => ["unexpected research output", q])
      = [blankQueryWarning] :=
  blank_query_yields_warning " \t\n" (fun q => ["unexpected research output", q])
    (by decide)
